import Mathlib

/-!
Verification development for the todoist-jira-sync repository.

Go strings are modeled as `List Char`.  The regular expressions of
`syncer/link.go` are deterministic (every repetition is over a character
class that excludes the character that must follow it), so they are
embedded as straight-line parsers below.
-/

/-- Character class `[A-Z]` of the Jira key pattern. -/
def isUpperCh (c : Char) : Bool := c.isUpper

/-- Character class `[A-Z0-9_]` of the Jira key pattern. -/
def isKeyBody (c : Char) : Bool := c.isUpper || c.isDigit || c == '_'

/-- Character class `\d` (ASCII digits). -/
def isDigitCh (c : Char) : Bool := c.isDigit

/-- Go regexp `\s`: the character class `[\t\n\f\r ]`. -/
def isGoSpace (c : Char) : Bool :=
  c == ' ' || c == '\t' || c == '\n' || c == '\x0c' || c == '\r'

/-- Consume one expected character. -/
def pChar (c : Char) : List Char → Option (List Char)
  | [] => none
  | x :: xs => if x = c then some xs else none

/-- Consume a nonempty maximal run of characters satisfying `p`
(a regexp `X+` where the following character is outside the class `X`). -/
def pRun (p : Char → Bool) (s : List Char) : Option (List Char × List Char) :=
  match s.takeWhile p with
  | [] => none
  | x :: xs => some (x :: xs, s.dropWhile p)

/-- Consume an expected literal string. -/
def pLit : List Char → List Char → Option (List Char)
  | [], s => some s
  | c :: cs, s => (pChar c s).bind (pLit cs)

/-- The characters of the literal `http://`. -/
def httpChars : List Char := ['h', 't', 't', 'p', ':', '/', '/']

/-- The characters of the literal `https://`. -/
def httpsChars : List Char := ['h', 't', 't', 'p', 's', ':', '/', '/']

/-- Consume the regexp `https?://` (try the `s` branch first, as a
backtracking engine would; the two branches are mutually exclusive). -/
def pScheme (s : List Char) : Option (List Char) :=
  match pLit httpsChars s with
  | some r => some r
  | none => pLit httpChars s

/-- Parse the Jira issue key pattern `[A-Z][A-Z0-9_]+-\d+` (greedy),
returning the matched key and the rest of the input. -/
def keyParse : List Char → Option (List Char × List Char)
  | [] => none
  | c0 :: rest =>
    if isUpperCh c0 then
      match pRun isKeyBody rest with
      | none => none
      | some (body, s1) =>
        match pChar '-' s1 with
        | none => none
        | some s2 =>
          match pRun isDigitCh s2 with
          | none => none
          | some (digs, s3) => some (c0 :: body ++ '-' :: digs, s3)
    else none

/-- The anchored marker regexp of `syncer/link.go`,
`jiraPrefixPattern = ^\[([A-Z][A-Z0-9_]+-\d+)\]\(https?://[^)]+\)\s*`.
On success it returns the captured key (group 1) and the input with the
whole match removed. -/
def matchJiraMarker (s : List Char) : Option (List Char × List Char) :=
  (pChar '[' s).bind (fun s1 =>
  (keyParse s1).bind (fun ks =>
  (pChar ']' ks.2).bind (fun s3 =>
  (pChar '(' s3).bind (fun s4 =>
  (pScheme s4).bind (fun s5 =>
  (pRun (fun c => c != ')') s5).bind (fun us =>
  (pChar ')' us.2).bind (fun s7 =>
  some (ks.1, s7.dropWhile isGoSpace))))))))

/-- Embedding of `ExtractJiraKey` (prefix codec, `syncer/link.go`): the Jira
issue key from a Todoist task's content, or `""` (here `[]`) when the
anchored pattern does not match. -/
def ExtractJiraKey (content : List Char) : List Char :=
  match matchJiraMarker content with
  | some (k, _) => k
  | none => []

/-- Embedding of `StripJiraPrefix` (`syncer/link.go`): remove the
`[PROJ-123](url)` prefix from content.  The regexp is anchored at the start,
so `ReplaceAllString` removes at most the one match at position 0. -/
def StripJiraPrefix (content : List Char) : List Char :=
  match matchJiraMarker content with
  | some (_, rest) => rest
  | none => content

/-- The characters of the literal `/browse/`. -/
def browseChars : List Char := ['/', 'b', 'r', 'o', 'w', 's', 'e', '/']

/-- Embedding of `PrependJiraLink` (`syncer/link.go`): prepend
`[key](baseURL/browse/key)` to the stripped content, with a single
separating space when the stripped content is nonempty. -/
def PrependJiraLink (content jiraKey jiraBaseURL : List Char) : List Char :=
  let stripped := StripJiraPrefix content
  let link := '[' :: jiraKey ++ ']' :: '(' :: jiraBaseURL ++ browseChars ++ jiraKey ++ [')']
  if stripped = [] then link else link ++ ' ' :: stripped

/-- Keys accepted by the capture group `[A-Z][A-Z0-9_]+-\d+`. -/
def ValidKey (k : List Char) : Prop :=
  ∃ c0 body digs, k = c0 :: body ++ '-' :: digs ∧
    isUpperCh c0 = true ∧ body ≠ [] ∧ (∀ c ∈ body, isKeyBody c = true) ∧
    digs ≠ [] ∧ (∀ c ∈ digs, isDigitCh c = true)

/-- Base URLs the marker regexp can re-recognise: an explicit
`http://` or `https://` scheme and no `)` character. -/
def GoodURL (u : List Char) : Prop :=
  ((∃ v, u = httpsChars ++ v) ∨ (∃ v, u = httpChars ++ v)) ∧ ∀ c ∈ u, c ≠ ')'

/-- Decidable check that a text does not begin with a `\s` character
(the greedy `\s*` tail of the marker regexp swallows leading whitespace
of the user content, so round-tripping needs this). -/
def noLeadSpace : List Char → Bool
  | [] => true
  | c :: _ => !isGoSpace c

/-! ### Parser lemmas for the prefix codec -/

theorem pChar_cons (c : Char) (xs : List Char) : pChar c (c :: xs) = some xs := by
  simp [pChar]

theorem takeWhile_append_stop {α : Type} (p : α → Bool) (xs ys : List α) (y : α)
    (hxs : ∀ c ∈ xs, p c = true) (hy : p y = false) :
    (xs ++ y :: ys).takeWhile p = xs := by
  induction xs with
  | nil => simp [List.takeWhile_cons, hy]
  | cons a as ih =>
    have ha : p a = true := hxs a (by simp)
    simp only [List.cons_append, List.takeWhile_cons_of_pos ha, List.cons.injEq, true_and]
    exact ih (fun c hc => hxs c (by simp [hc]))

theorem dropWhile_append_stop {α : Type} (p : α → Bool) (xs ys : List α) (y : α)
    (hxs : ∀ c ∈ xs, p c = true) (hy : p y = false) :
    (xs ++ y :: ys).dropWhile p = y :: ys := by
  induction xs with
  | nil => simp [List.dropWhile_cons, hy]
  | cons a as ih =>
    have ha : p a = true := hxs a (by simp)
    simp only [List.cons_append, List.dropWhile_cons_of_pos ha]
    exact ih (fun c hc => hxs c (by simp [hc]))

theorem pRun_append (p : Char → Bool) (xs ys : List Char) (y : Char)
    (hne : xs ≠ []) (hxs : ∀ c ∈ xs, p c = true) (hy : p y = false) :
    pRun p (xs ++ y :: ys) = some (xs, y :: ys) := by
  unfold pRun
  rw [takeWhile_append_stop p xs ys y hxs hy, dropWhile_append_stop p xs ys y hxs hy]
  cases xs with
  | nil => exact absurd rfl hne
  | cons a as => rfl

theorem pLit_append (pre rest : List Char) : pLit pre (pre ++ rest) = some rest := by
  induction pre with
  | nil => rfl
  | cons c cs ih => simp [pLit, pChar_cons, ih]

theorem pScheme_https (r : List Char) : pScheme (httpsChars ++ r) = some r := by
  simp [pScheme, pLit_append]

theorem pScheme_http (r : List Char) : pScheme (httpChars ++ r) = some r := by
  have hfail : pLit httpsChars (httpChars ++ r) = none := by
    simp [httpsChars, httpChars, pLit, pChar]
  simp [pScheme, hfail, pLit_append]

theorem keyParse_append (k rest : List Char) (y : Char) (hk : ValidKey k)
    (hy : isDigitCh y = false) :
    keyParse (k ++ y :: rest) = some (k, y :: rest) := by
  obtain ⟨c0, body, digs, hkeq, hup, hbne, hbody, hdne, hdigs⟩ := hk
  subst hkeq
  have hdash : isKeyBody '-' = false := by decide
  have h1 : pRun isKeyBody (body ++ '-' :: (digs ++ y :: rest)) = some (body, '-' :: (digs ++ y :: rest)) :=
    pRun_append isKeyBody body (digs ++ y :: rest) '-' hbne hbody hdash
  have h2 : pRun isDigitCh (digs ++ y :: rest) = some (digs, y :: rest) :=
    pRun_append isDigitCh digs rest y hdne hdigs hy
  simp [keyParse, hup, List.append_assoc, h1, pChar_cons, h2]

theorem validKey_chars (k : List Char) (hk : ValidKey k) :
    ∀ c ∈ k, (c != ')') = true := by
  obtain ⟨c0, body, digs, hkeq, hup, _, hbody, _, hdigs⟩ := hk
  subst hkeq
  intro c hc
  simp only [bne_iff_ne, ne_eq]
  intro hcp
  subst hcp
  simp only [List.mem_cons, List.mem_append, List.mem_cons] at hc
  rcases hc with (h | h) | (h | h)
  · subst h
    exact absurd hup (by decide)
  · exact absurd (hbody _ h) (by decide)
  · exact absurd h (by decide)
  · exact absurd (hdigs _ h) (by decide)

theorem browse_ne_nil (v k : List Char) : v ++ (browseChars ++ k) ≠ [] := by
  intro hemp
  rcases List.append_eq_nil.mp hemp with ⟨_, hbk⟩
  rcases List.append_eq_nil.mp hbk with ⟨hb, _⟩
  exact absurd hb (by decide)

theorem urlRun_chars (u v k : List Char) (hnopar : ∀ c ∈ u, c ≠ ')')
    (hsub : ∀ c ∈ v, c ∈ u) (hk : ValidKey k) :
    ∀ c ∈ v ++ (browseChars ++ k), (c != ')') = true := by
  intro c hc
  rcases List.mem_append.mp hc with h | h
  · simp only [bne_iff_ne, ne_eq]
    exact hnopar c (hsub c h)
  · rcases List.mem_append.mp h with h | h
    · have hb : ∀ c ∈ browseChars, (c != ')') = true := by decide
      exact hb c h
    · exact validKey_chars k hk c h

theorem marker_parse (k u rest : List Char) (hk : ValidKey k) (hu : GoodURL u) :
    matchJiraMarker ('[' :: k ++ ']' :: '(' :: u ++ browseChars ++ k ++ ')' :: rest) =
      some (k, rest.dropWhile isGoSpace) := by
  obtain ⟨hscheme, hnopar⟩ := hu
  have hclose : ((')' : Char) != ')') = false := by decide
  rcases hscheme with ⟨v, hv⟩ | ⟨v, hv⟩
  · subst hv
    have hkstep := keyParse_append k
      ('(' :: (httpsChars ++ (v ++ (browseChars ++ (k ++ (')' :: rest)))))) ']' hk (by decide)
    have hsstep : pScheme (httpsChars ++ (v ++ (browseChars ++ (k ++ (')' :: rest))))) =
        some (v ++ (browseChars ++ (k ++ (')' :: rest)))) := pScheme_https _
    have hrun : pRun (fun c => c != ')') (v ++ (browseChars ++ (k ++ (')' :: rest)))) =
        some (v ++ (browseChars ++ k), ')' :: rest) := by
      have := pRun_append (fun c => c != ')') (v ++ (browseChars ++ k)) rest ')'
        (browse_ne_nil v k)
        (urlRun_chars (httpsChars ++ v) v k hnopar
          (fun c hc => List.mem_append.mpr (Or.inr hc)) hk)
        hclose
      simpa [List.append_assoc] using this
    simp [matchJiraMarker, List.cons_append, List.append_assoc, pChar_cons,
      Option.some_bind, hkstep, hsstep, hrun]
  · subst hv
    have hkstep := keyParse_append k
      ('(' :: (httpChars ++ (v ++ (browseChars ++ (k ++ (')' :: rest)))))) ']' hk (by decide)
    have hsstep : pScheme (httpChars ++ (v ++ (browseChars ++ (k ++ (')' :: rest))))) =
        some (v ++ (browseChars ++ (k ++ (')' :: rest)))) := pScheme_http _
    have hrun : pRun (fun c => c != ')') (v ++ (browseChars ++ (k ++ (')' :: rest)))) =
        some (v ++ (browseChars ++ k), ')' :: rest) := by
      have := pRun_append (fun c => c != ')') (v ++ (browseChars ++ k)) rest ')'
        (browse_ne_nil v k)
        (urlRun_chars (httpChars ++ v) v k hnopar
          (fun c hc => List.mem_append.mpr (Or.inr hc)) hk)
        hclose
      simpa [List.append_assoc] using this
    simp [matchJiraMarker, List.cons_append, List.append_assoc, pChar_cons,
      Option.some_bind, hkstep, hsstep, hrun]

theorem dropWhile_noLead (s : List Char) (h : noLeadSpace s = true) :
    s.dropWhile isGoSpace = s := by
  cases s with
  | nil => rfl
  | cons c cs =>
    simp only [noLeadSpace, Bool.not_eq_true'] at h
    exact List.dropWhile_cons_of_neg (by simp [h])

theorem prepend_marker (t k u : List Char) (hk : ValidKey k) (hu : GoodURL u)
    (ht : noLeadSpace (StripJiraPrefix t) = true) :
    matchJiraMarker (PrependJiraLink t k u) = some (k, StripJiraPrefix t) := by
  simp only [PrependJiraLink]
  split
  next hs =>
    rw [hs]
    simpa using marker_parse k u [] hk hu
  next hs =>
    have hm := marker_parse k u (' ' :: StripJiraPrefix t) hk hu
    have hdrop : (' ' :: StripJiraPrefix t).dropWhile isGoSpace = StripJiraPrefix t := by
      rw [List.dropWhile_cons_of_pos (by decide)]
      exact dropWhile_noLead _ ht
    rw [hdrop] at hm
    simpa [List.append_assoc] using hm

theorem extract_of_prepend (t k u : List Char) (hk : ValidKey k) (hu : GoodURL u)
    (ht : noLeadSpace (StripJiraPrefix t) = true) :
    ExtractJiraKey (PrependJiraLink t k u) = k := by
  simp [ExtractJiraKey, prepend_marker t k u hk hu ht]

theorem strip_of_prepend (t k u : List Char) (hk : ValidKey k) (hu : GoodURL u)
    (ht : noLeadSpace (StripJiraPrefix t) = true) :
    StripJiraPrefix (PrependJiraLink t k u) = StripJiraPrefix t := by
  simp [StripJiraPrefix, prepend_marker t k u hk hu ht]

theorem prepend_congr (a b k u : List Char) (h : StripJiraPrefix a = StripJiraPrefix b) :
    PrependJiraLink a k u = PrependJiraLink b k u := by
  simp [PrependJiraLink, h]

/-- C5 (amended): the link codec round-trips for every key that matches the
Jira key pattern `[A-Z][A-Z0-9_]+-\d+`, every base URL with an explicit
`http://`/`https://` scheme and no `)`, and every text whose stripped form
does not start with whitespace:
`ExtractJiraKey (PrependJiraLink text key url) = key` and
`StripJiraPrefix (PrependJiraLink text key url) = StripJiraPrefix text`. -/
theorem c5_link_roundtrip (k u t : List Char) (hk : ValidKey k) (hu : GoodURL u)
    (ht : noLeadSpace (StripJiraPrefix t) = true) :
    ExtractJiraKey (PrependJiraLink t k u) = k ∧
    StripJiraPrefix (PrependJiraLink t k u) = StripJiraPrefix t :=
  ⟨extract_of_prepend t k u hk hu ht, strip_of_prepend t k u hk hu ht⟩

/-- Witness for C5 at the concrete key `AB-12`, base URL
`https://example.atlassian.net` and text `fix bug`. -/
theorem c5_link_roundtrip_witness :
    ExtractJiraKey (PrependJiraLink "fix bug".toList "AB-12".toList
        "https://example.atlassian.net".toList) = "AB-12".toList ∧
    StripJiraPrefix (PrependJiraLink "fix bug".toList "AB-12".toList
        "https://example.atlassian.net".toList) = StripJiraPrefix "fix bug".toList :=
  c5_link_roundtrip "AB-12".toList "https://example.atlassian.net".toList "fix bug".toList
    ⟨'A', ['B'], ['1', '2'], by decide, by decide, by decide, by decide, by decide, by decide⟩
    ⟨Or.inl ⟨"example.atlassian.net".toList, by decide⟩, by decide⟩
    (by decide)

/-- Counterexample to C5 as stated: the claim quantifies over every
non-empty key, but the marker regexp only recognises keys of the shape
`[A-Z][A-Z0-9_]+-\d+`; embedding the non-empty key `x` produces a text from
which extraction returns the absent value `""` instead of `x`. -/
theorem c5_link_roundtrip_cex :
    (['x'] : List Char) ≠ [] ∧
    ExtractJiraKey (PrependJiraLink [] ['x'] "https://example.com".toList) ≠ ['x'] := by
  constructor
  · decide
  · decide

/-- C6 (amended): embedding is idempotent in the replace-not-append sense
for pattern-valid keys and scheme-prefixed `)`-free base URLs: re-embedding
replaces the existing marker, so
`PrependJiraLink (PrependJiraLink t k1 u) k2 u = PrependJiraLink t k2 u`,
and the resulting text carries exactly the single anchored marker with key
`k2` (`ExtractJiraKey` recovers `k2`). -/
theorem c6_embed_idempotent (k1 k2 u t : List Char) (hk1 : ValidKey k1)
    (hk2 : ValidKey k2) (hu : GoodURL u)
    (ht : noLeadSpace (StripJiraPrefix t) = true) :
    PrependJiraLink (PrependJiraLink t k1 u) k2 u = PrependJiraLink t k2 u ∧
    ExtractJiraKey (PrependJiraLink (PrependJiraLink t k1 u) k2 u) = k2 := by
  have hstrip : StripJiraPrefix (PrependJiraLink t k1 u) = StripJiraPrefix t :=
    strip_of_prepend t k1 u hk1 hu ht
  have hlead : noLeadSpace (StripJiraPrefix (PrependJiraLink t k1 u)) = true := by
    rw [hstrip]; exact ht
  exact ⟨prepend_congr _ _ k2 u hstrip,
    extract_of_prepend (PrependJiraLink t k1 u) k2 u hk2 hu hlead⟩

/-- Witness for C6 with the concrete keys `AB-1`, `CD-2`, base URL
`https://example.com` and text `t`. -/
theorem c6_embed_idempotent_witness :
    PrependJiraLink (PrependJiraLink "t".toList "AB-1".toList "https://example.com".toList)
        "CD-2".toList "https://example.com".toList =
      PrependJiraLink "t".toList "CD-2".toList "https://example.com".toList ∧
    ExtractJiraKey (PrependJiraLink
        (PrependJiraLink "t".toList "AB-1".toList "https://example.com".toList)
        "CD-2".toList "https://example.com".toList) = "CD-2".toList :=
  c6_embed_idempotent "AB-1".toList "CD-2".toList "https://example.com".toList "t".toList
    ⟨'A', ['B'], ['1'], by decide, by decide, by decide, by decide, by decide, by decide⟩
    ⟨'C', ['D'], ['2'], by decide, by decide, by decide, by decide, by decide, by decide⟩
    ⟨Or.inl ⟨"example.com".toList, by decide⟩, by decide⟩
    (by decide)

/-- Counterexample to C6 as stated: the claim quantifies over all keys
`k1, k2`, but re-embedding with the pattern-invalid key `k2 = "x"` produces
a text that contains no marker at all (extraction returns the absent
value), contradicting "exactly one link marker whose key is `k2`". -/
theorem c6_embed_idempotent_cex :
    ExtractJiraKey (PrependJiraLink
        (PrependJiraLink [] "AB-1".toList "https://example.com".toList)
        ['x'] "https://example.com".toList) = [] ∧ (['x'] : List Char) ≠ [] := by
  constructor
  · decide
  · decide

/-! ### Inversion lemmas: a successful parse exposes the canonical marker -/

theorem pChar_inv (c : Char) (s r : List Char) (h : pChar c s = some r) : s = c :: r := by
  cases s with
  | nil => simp [pChar] at h
  | cons x xs =>
    by_cases hx : x = c
    · subst hx
      simp [pChar] at h
      rw [h]
    · simp [pChar, hx] at h

theorem pRun_inv (p : Char → Bool) (s xs r : List Char) (h : pRun p s = some (xs, r)) :
    s = xs ++ r ∧ xs ≠ [] ∧ ∀ c ∈ xs, p c = true := by
  unfold pRun at h
  cases htw : s.takeWhile p with
  | nil => rw [htw] at h; simp at h
  | cons a as =>
    rw [htw] at h
    simp only [Option.some.injEq, Prod.mk.injEq] at h
    obtain ⟨hxs, hr⟩ := h
    refine ⟨?_, ?_, ?_⟩
    · rw [← hxs, ← hr, ← htw]
      exact (List.takeWhile_append_dropWhile p s).symm
    · rw [← hxs]; simp
    · intro c hc
      rw [← hxs] at hc
      rw [← htw] at hc
      exact List.mem_takeWhile_imp hc

theorem pLit_inv (pre : List Char) : ∀ s r : List Char, pLit pre s = some r → s = pre ++ r := by
  induction pre with
  | nil => intro s r h; simpa [pLit] using h
  | cons c cs ih =>
    intro s r h
    simp only [pLit] at h
    cases hc : pChar c s with
    | none => rw [hc] at h; simp at h
    | some s1 =>
      rw [hc] at h
      simp only [Option.some_bind] at h
      rw [pChar_inv c s s1 hc, ih s1 r h]
      rfl

theorem pScheme_inv (s r : List Char) (h : pScheme s = some r) :
    s = httpsChars ++ r ∨ s = httpChars ++ r := by
  unfold pScheme at h
  cases h1 : pLit httpsChars s with
  | some x =>
    rw [h1] at h
    simp only [Option.some.injEq] at h
    exact Or.inl (by rw [← h]; exact pLit_inv _ s x h1)
  | none =>
    rw [h1] at h
    exact Or.inr (pLit_inv _ s r h)

theorem keyParse_inv (s k r : List Char) (h : keyParse s = some (k, r)) :
    s = k ++ r ∧ ValidKey k := by
  cases s with
  | nil => simp [keyParse] at h
  | cons c0 rest =>
    simp only [keyParse] at h
    split at h
    next hup =>
      cases h1 : pRun isKeyBody rest with
      | none => rw [h1] at h; simp at h
      | some bs =>
        obtain ⟨body, s1⟩ := bs
        rw [h1] at h
        simp only at h
        cases h2 : pChar '-' s1 with
        | none => rw [h2] at h; simp at h
        | some s2 =>
          rw [h2] at h
          simp only at h
          cases h3 : pRun isDigitCh s2 with
          | none => rw [h3] at h; simp at h
          | some ds =>
            obtain ⟨digs, s3⟩ := ds
            rw [h3] at h
            simp only [Option.some.injEq, Prod.mk.injEq] at h
            obtain ⟨hk, hr⟩ := h
            obtain ⟨hrest, hbne, hbody⟩ := pRun_inv isKeyBody rest body s1 h1
            obtain ⟨hdrest, hdne, hdigs⟩ := pRun_inv isDigitCh s2 digs s3 h3
            have hs1 : s1 = '-' :: s2 := pChar_inv '-' s1 s2 h2
            constructor
            · rw [← hk, ← hr, hrest, hs1, hdrest]
              simp
            · exact ⟨c0, body, digs, hk.symm, hup, hbne, hbody, hdne, hdigs⟩
    next hup => simp at h

theorem matchJiraMarker_inv (s k r : List Char) (h : matchJiraMarker s = some (k, r)) :
    ValidKey k ∧ ∃ url tail, GoodURL url ∧
      s = '[' :: k ++ ']' :: '(' :: url ++ ')' :: tail ∧
      r = tail.dropWhile isGoSpace := by
  unfold matchJiraMarker at h
  simp only [Option.bind_eq_some] at h
  obtain ⟨s1, hs1, ⟨kk, s2⟩, hkp, s3, hs3, s4, hs4, s5, hs5, ⟨url1, s6⟩, hrun, s7, hs7, hfin⟩ := h
  simp only [Option.some.injEq, Prod.mk.injEq] at hfin
  obtain ⟨hkk, hr⟩ := hfin
  subst hkk
  obtain ⟨hseq, hkvalid⟩ := keyParse_inv s1 kk s2 hkp
  obtain ⟨hs5eq, hu1ne, hurl1⟩ := pRun_inv _ s5 url1 s6 hrun
  have hbr : s = '[' :: s1 := pChar_inv '[' s s1 hs1
  have hs2eq : s2 = ']' :: s3 := pChar_inv ']' s2 s3 hs3
  have hs3eq : s3 = '(' :: s4 := pChar_inv '(' s3 s4 hs4
  have hs6eq : s6 = ')' :: s7 := pChar_inv ')' s6 s7 hs7
  have hsch : ∀ c ∈ httpsChars, c ≠ ')' := by decide
  have hsch2 : ∀ c ∈ httpChars, c ≠ ')' := by decide
  have hu1 : ∀ c ∈ url1, c ≠ ')' := by
    intro c hc
    have := hurl1 c hc
    simpa [bne_iff_ne] using this
  rcases pScheme_inv s4 s5 hs5 with hs4eq | hs4eq
  · refine ⟨hkvalid, httpsChars ++ url1, s7, ⟨⟨Or.inl ⟨url1, rfl⟩, ?_⟩, ?_, ?_⟩⟩
    · intro c hc
      rcases List.mem_append.mp hc with hc | hc
      · exact hsch c hc
      · exact hu1 c hc
    · rw [hbr, hseq, hs2eq, hs3eq, hs4eq, hs5eq, hs6eq]
      simp
    · rw [← hr]
  · refine ⟨hkvalid, httpChars ++ url1, s7, ⟨⟨Or.inr ⟨url1, rfl⟩, ?_⟩, ?_, ?_⟩⟩
    · intro c hc
      rcases List.mem_append.mp hc with hc | hc
      · exact hsch2 c hc
      · exact hu1 c hc
    · rw [hbr, hseq, hs2eq, hs3eq, hs4eq, hs5eq, hs6eq]
      simp
    · rw [← hr]

/-! ### Footer codec (the `synced-jira-key:` variant of `syncer/link.go`) -/

/-- The characters of the literal `synced-jira-key:`. -/
def syncedKeyChars : List Char := "synced-jira-key:".toList

/-- Try to match the unanchored footer pattern
`synced-jira-key:\s*([A-Z][A-Z0-9_]+-\d+)` at the current position. -/
def footerKeyAt (s : List Char) : Option (List Char) :=
  match pLit syncedKeyChars s with
  | none => none
  | some s1 =>
    match keyParse (s1.dropWhile isGoSpace) with
    | some (k, _) => some k
    | none => none

/-- Embedding of the footer-codec `ExtractJiraKey` of `syncer/link.go`:
Go's `FindStringSubmatch` with the unanchored pattern
`synced-jira-key:\s*([A-Z][A-Z0-9_]+-\d+)` scans for the leftmost match
anywhere in the description and returns capture group 1, or `""` when
there is no match at any position. -/
def footerExtractJiraKey : List Char → List Char
  | [] => []
  | c :: rest =>
    match footerKeyAt (c :: rest) with
    | some k => k
    | none => footerExtractJiraKey rest

/-- C7 (amended): for the prefix codec the property holds as extraction
soundness — a nonempty extraction result is only ever produced by a
canonical well-formed marker sitting at the anchor (position 0), so
mid-string or malformed marker-like substrings are never matched.  The
footer codec, by contrast, matches its pattern anywhere in the text (see
the counterexample), so the claim holds only for the prefix codec. -/
theorem c7_extract_sound (t k : List Char) (h : ExtractJiraKey t = k) (hne : k ≠ []) :
    ValidKey k ∧ ∃ url tail, GoodURL url ∧
      t = '[' :: k ++ ']' :: '(' :: url ++ ')' :: tail := by
  unfold ExtractJiraKey at h
  cases hm : matchJiraMarker t with
  | none =>
    rw [hm] at h
    exact absurd h.symm hne
  | some pr =>
    obtain ⟨k1, r⟩ := pr
    rw [hm] at h
    simp only at h
    subst h
    obtain ⟨hv, url, tail, hg, ht, _⟩ := matchJiraMarker_inv t k1 r hm
    exact ⟨hv, url, tail, hg, ht⟩

/-- Witness for C7: the text `[AB-1](http://x) z` extracts the nonempty
key `AB-1`, and the theorem then exposes the canonical marker
decomposition of the text. -/
theorem c7_extract_sound_witness :
    ValidKey "AB-1".toList ∧ ∃ url tail, GoodURL url ∧
      "[AB-1](http://x) z".toList =
        '[' :: "AB-1".toList ++ ']' :: '(' :: url ++ ')' :: tail :=
  c7_extract_sound "[AB-1](http://x) z".toList "AB-1".toList (by decide) (by decide)

/-- Counterexample to C7 as stated: under the footer codec the marker
pattern is unanchored, so a `synced-jira-key:` marker sitting mid-text —
in a description that contains no `\n\n---\n` footer separator at all, so
no marker at the canonical anchor position — is still matched, and
extraction returns `AB-1` instead of the absent value. -/
theorem c7_footer_mid_cex :
    footerExtractJiraKey "note synced-jira-key: AB-1 here".toList = "AB-1".toList ∧
    footerExtractJiraKey "note synced-jira-key: AB-1 here".toList ≠ [] := by
  constructor
  · decide
  · decide

/-! ### Section/status mapper (`config.JiraStatusForSection`,
`config.SectionForJiraStatus`): the configured `StatusMap` is modeled as an
association list with the uniqueness of Go map keys left implicit (only
lookups are performed). -/

/-- Embedding of `Config.JiraStatusForSection`: look the Todoist section
name up in the status map; when no entry exists, the section name is
returned as-is. -/
def JiraStatusForSection (statusMap : List (String × String)) (sectionName : String) : String :=
  match statusMap.find? (fun p => p.1 == sectionName) with
  | some p => p.2
  | none => sectionName

/-- Embedding of `Config.SectionForJiraStatus`: scan the status map for an
entry whose value is the Jira status; when no entry exists, the status
name is returned as-is. -/
def SectionForJiraStatus (statusMap : List (String × String)) (jiraStatus : String) : String :=
  match statusMap.find? (fun p => p.2 == jiraStatus) with
  | some p => p.1
  | none => jiraStatus

/-- C8: the status mapping defaults to identity — a name that is not a key
of the configured map is returned unchanged by `JiraStatusForSection`, and
a name that is not a value of the map is returned unchanged by
`SectionForJiraStatus`, so unconfigured names round-trip losslessly. -/
theorem c8_mapping_identity (statusMap : List (String × String)) (x : String) :
    ((∀ p ∈ statusMap, p.1 ≠ x) → JiraStatusForSection statusMap x = x) ∧
    ((∀ p ∈ statusMap, p.2 ≠ x) → SectionForJiraStatus statusMap x = x) := by
  constructor
  · intro hx
    have hnone : statusMap.find? (fun p => p.1 == x) = none := by
      rw [List.find?_eq_none]
      intro p hp
      simp [hx p hp]
    simp [JiraStatusForSection, hnone]
  · intro hx
    have hnone : statusMap.find? (fun p => p.2 == x) = none := by
      rw [List.find?_eq_none]
      intro p hp
      simp [hx p hp]
    simp [SectionForJiraStatus, hnone]

/-- Witness for C8 at the default status map and the unconfigured name
`Weird Bucket`. -/
theorem c8_mapping_identity_witness :
    JiraStatusForSection
      [("To Do", "To Do"), ("In Progress", "In Progress"), ("Done", "Done")]
      "Weird Bucket" = "Weird Bucket" ∧
    SectionForJiraStatus
      [("To Do", "To Do"), ("In Progress", "In Progress"), ("Done", "Done")]
      "Weird Bucket" = "Weird Bucket" :=
  ⟨(c8_mapping_identity
      [("To Do", "To Do"), ("In Progress", "In Progress"), ("Done", "Done")]
      "Weird Bucket").1 (by decide),
   (c8_mapping_identity
      [("To Do", "To Do"), ("In Progress", "In Progress"), ("Done", "Done")]
      "Weird Bucket").2 (by decide)⟩

/-! ### Engine data model (`syncer/engine.go`)

Timestamps are abstracted at parse boundaries: `updatedAtParse` is the
result of Go's `time.Parse(time.RFC3339Nano, task.UpdatedAt)` (`none` when
unparsable), and `updatedVal` is the `time.Time` value of
`issue.Fields.Updated` after the engine's two-format parse attempt (the Go
zero value when both fail), with `time.Time` modeled as `Int` and `After`
as strict `>`.  `sprintStates` is the JSON-decoded list of sprint `state`
values of `customfield_10020` (`none` models a nil/empty/undecodable
field, mirroring `jira.InCurrentSprint`). -/

structure TodoistTask where
  id : String
  content : List Char
  labels : List String
  sectionID : String
  updatedAtParse : Option Int
deriving DecidableEq

structure JiraIssueFields where
  summary : List Char
  resolution : Option String
  statusName : Option String
  updatedVal : Int
  sprintStates : Option (List String)
deriving DecidableEq

structure JiraIssue where
  key : List Char
  fields : Option JiraIssueFields
deriving DecidableEq

/-- The `issues[i].Fields != nil && issues[i].Fields.Resolution != nil`
check of `Engine.Run`. -/
def resolutionOf (i : JiraIssue) : Option String :=
  match i.fields with
  | some f => f.resolution
  | none => none

/-- The `issue.Fields.Summary` accessed throughout the engine (empty for a
nil `Fields`, which Go would never reach without panicking). -/
def summaryOf (i : JiraIssue) : List Char :=
  match i.fields with
  | some f => f.summary
  | none => []

/-- Embedding of `jira.InCurrentSprint`: false when `Fields` is nil or the
sprint field is absent/undecodable, true exactly when some decoded sprint
has state `active`. -/
def InCurrentSprint (i : JiraIssue) : Bool :=
  match i.fields with
  | none => false
  | some f =>
    match f.sprintStates with
    | none => false
    | some sts => sts.contains "active"

/-- The three mutually exclusive outcomes of `syncLinkedPair`
(`syncer/engine.go` lines 409-461).  `closeTask id` models the resolved
branch, whose only remote call is the single Todoist `CloseTask(id)` —
no Jira-side update, transition, or comment call happens there; the two
push outcomes model delegation to `pushJiraToTodoist` /
`pushTodoistToJira`. -/
inductive PairAction where
  | closeTask (taskID : String)
  | pushJiraToTodoist
  | pushTodoistToJira
deriving DecidableEq

/-- Embedding of `Engine.syncLinkedPair` (lines 409-461), restricted to
issues with non-nil `Fields` (the only ones the Go code reaches without
panicking): the resolution check comes first; then an unparsable Todoist
`updated_at` defaults to pushing Todoist→Jira; otherwise the direction is
decided by `jiraUpdated.After(todoistUpdated)`. -/
def syncLinkedPair (task : TodoistTask) (f : JiraIssueFields) : PairAction :=
  if f.resolution.isSome then PairAction.closeTask task.id
  else
    match task.updatedAtParse with
    | none => PairAction.pushTodoistToJira
    | some tU =>
      if f.updatedVal > tU then PairAction.pushJiraToTodoist
      else PairAction.pushTodoistToJira

/-- C1: for a linked pair whose issue has no resolution set,
`syncLinkedPair` pushes Jira→Todoist exactly when the issue's updated
timestamp is strictly later than the task's; pushes Todoist→Jira when the
task's timestamp is later than or equal (tie included); and pushes
Todoist→Jira when the task's `updated_at` is unparsable. -/
theorem c1_sync_direction (task : TodoistTask) (f : JiraIssueFields)
    (hres : f.resolution = none) :
    (task.updatedAtParse = none → syncLinkedPair task f = PairAction.pushTodoistToJira) ∧
    (∀ tU, task.updatedAtParse = some tU →
      (f.updatedVal > tU → syncLinkedPair task f = PairAction.pushJiraToTodoist) ∧
      (tU ≥ f.updatedVal → syncLinkedPair task f = PairAction.pushTodoistToJira)) := by
  refine ⟨?_, ?_⟩
  · intro hp
    simp [syncLinkedPair, hres, hp]
  · intro tU hp
    constructor
    · intro hgt
      simp [syncLinkedPair, hres, hp, hgt]
    · intro hge
      have hng : ¬ f.updatedVal > tU := not_lt.mpr hge
      simp [syncLinkedPair, hres, hp, hng]

/-- Witness for C1: with task time 5 and issue time 7 the pair is pushed
Jira→Todoist. -/
theorem c1_sync_direction_witness :
    syncLinkedPair ⟨"1", [], [], "", some 5⟩ ⟨[], none, none, 7, none⟩ =
      PairAction.pushJiraToTodoist :=
  ((c1_sync_direction ⟨"1", [], [], "", some 5⟩ ⟨[], none, none, 7, none⟩ rfl).2
    5 rfl).1 (by decide)

/-- C2: for a linked pair whose issue resolution is set, `syncLinkedPair`
returns the close-Todoist-task outcome for the task's ID regardless of
either side's timestamps — that branch's only remote call is
`CloseTask`, with no Jira-side mutation. -/
theorem c2_resolved_closes (task : TodoistTask) (f : JiraIssueFields)
    (hres : f.resolution.isSome = true) :
    syncLinkedPair task f = PairAction.closeTask task.id := by
  simp [syncLinkedPair, hres]

/-- Witness for C2: a resolved issue closes the task even though the task
timestamp (100) is far newer than the issue's (0). -/
theorem c2_resolved_closes_witness :
    syncLinkedPair ⟨"9", [], [], "", some 100⟩ ⟨[], some "Done", none, 0, none⟩ =
      PairAction.closeTask "9" :=
  c2_resolved_closes ⟨"9", [], [], "", some 100⟩ ⟨[], some "Done", none, 0, none⟩ rfl

/-! ### Jira client `DoTransition` (`jira` package client, the v3 Resty
version): transition lookup and payload construction.  `strings.EqualFold`
is modeled as ASCII case folding (all status names in play are ASCII). -/

/-- Lower-case an ASCII character. -/
def asciiLower (c : Char) : Char :=
  if c.isUpper then Char.ofNat (c.toNat + 32) else c

/-- ASCII model of Go's `strings.EqualFold`. -/
def equalFold (a b : String) : Bool := a.data.map asciiLower == b.data.map asciiLower

structure TransitionM where
  id : String
  name : String
  toName : String
deriving DecidableEq

/-- The JSON payload of `POST /issue/{key}/transitions`: the chosen
transition ID plus the optional `fields.resolution.name` that
`DoTransition` adds. -/
structure TransitionPayload where
  transitionID : String
  resolutionName : Option String
deriving DecidableEq

/-- Embedding of the transition lookup of `DoTransition`: the first listed
transition whose name or target-status name equals the target
case-insensitively. -/
def findTransitionID (ts : List TransitionM) (targetStatus : String) : Option String :=
  (ts.find? (fun t => equalFold t.name targetStatus || equalFold t.toName targetStatus)).map
    (fun t => t.id)

/-- Embedding of `DoTransition`'s payload construction: `none` models the
error return when no transition matches; otherwise the payload carries a
`{Name: "Done"}` resolution exactly when the target status equals
`Closed` case-insensitively. -/
def doTransitionPayload (ts : List TransitionM) (targetStatus : String) : Option TransitionPayload :=
  match findTransitionID ts targetStatus with
  | none => none
  | some tid =>
    some ⟨tid, if equalFold targetStatus "Closed" then some "Done" else none⟩

/-- C10: whenever `DoTransition` builds a payload, that payload carries the
resolution `{Name: "Done"}` exactly when the target status equals
`Closed` case-insensitively, and carries no resolution field for any other
target — which is what later makes an engine-closed issue show a non-nil
`Resolution`, feeding the resolved-issue branch of `syncLinkedPair`. -/
theorem c10_transition_resolution (ts : List TransitionM) (target : String)
    (p : TransitionPayload) (h : doTransitionPayload ts target = some p) :
    (equalFold target "Closed" = true → p.resolutionName = some "Done") ∧
    (equalFold target "Closed" = false → p.resolutionName = none) := by
  unfold doTransitionPayload at h
  cases hf : findTransitionID ts target with
  | none => rw [hf] at h; simp at h
  | some tid =>
    rw [hf] at h
    simp only [Option.some.injEq] at h
    subst h
    constructor
    · intro hc
      simp [hc]
    · intro hc
      simp [hc]

/-- Witness for C10: with a workflow offering a `Close Issue` transition
into status `Closed`, targeting `closed` (case-insensitive) yields a
payload with resolution `Done`. -/
theorem c10_transition_resolution_witness :
    (⟨"31", some "Done"⟩ : TransitionPayload).resolutionName = some "Done" :=
  (c10_transition_resolution [⟨"11", "Start", "In Progress"⟩, ⟨"31", "Close Issue", "Closed"⟩]
    "closed" ⟨"31", some "Done"⟩ (by decide)).1 (by decide)

/-! ### Comment propagation (`Engine.syncCommentsToTodoist`,
`syncer/engine.go` lines 560-600).  ADF-to-text conversion
(`jira.ADFToText`) is abstracted as an arbitrary function `toText`;
comment bodies and Todoist comment contents are Lean `String`s.  The list
returned by the model is the sequence of comment bodies the loop passes
to `CreateComment` (creations are assumed to succeed, as the idempotence
claim presumes). -/

structure JiraCommentM where
  author : Option String
  body : String
deriving DecidableEq

/-- The fully rendered, prefixed body
`fmt.Sprintf("`+"`"+`[From Jira %s]`+"`"+`", authorName) + "\n" + ADFToText(body)`,
with the author display name empty when `Author` is nil. -/
def renderedComment (toText : String → String) (jc : JiraCommentM) : String :=
  "`[From Jira " ++ (match jc.author with | some n => n | none => "") ++ "]`" ++ "\n" ++
    toText jc.body

/-- Embedding of `syncCommentsToTodoist`: nothing happens when the issue's
`Comment` field is nil; otherwise each Jira comment whose rendered form is
not among the pre-fetched Todoist comment contents is created.  The
membership check is against the pre-fetched list only, exactly as in the
source. -/
def syncCommentsToTodoist (toText : String → String)
    (commentPage : Option (List JiraCommentM)) (existing : List String) : List String :=
  match commentPage with
  | none => []
  | some jcs =>
    jcs.foldl (fun created jc =>
      if renderedComment toText jc ∈ existing then created
      else created ++ [renderedComment toText jc]) []

theorem commentFold_append (toText : String → String) (existing : List String)
    (jcs : List JiraCommentM) (acc : List String) :
    jcs.foldl (fun created jc =>
      if renderedComment toText jc ∈ existing then created
      else created ++ [renderedComment toText jc]) acc =
    acc ++ jcs.foldl (fun created jc =>
      if renderedComment toText jc ∈ existing then created
      else created ++ [renderedComment toText jc]) [] := by
  induction jcs generalizing acc with
  | nil => simp
  | cons jc rest ih =>
    simp only [List.foldl_cons]
    by_cases hs : renderedComment toText jc ∈ existing
    · simp only [if_pos hs]
      exact ih acc
    · simp only [if_neg hs, List.nil_append]
      rw [ih (acc ++ [renderedComment toText jc]), ih [renderedComment toText jc]]
      simp

theorem commentFold_mem (toText : String → String) (existing : List String)
    (jcs : List JiraCommentM) (jc : JiraCommentM) (hjc : jc ∈ jcs)
    (hnot : renderedComment toText jc ∉ existing) :
    renderedComment toText jc ∈ jcs.foldl (fun created jc' =>
      if renderedComment toText jc' ∈ existing then created
      else created ++ [renderedComment toText jc']) [] := by
  induction jcs with
  | nil => cases hjc
  | cons jc0 rest ih =>
    simp only [List.foldl_cons]
    rw [commentFold_append]
    rcases List.mem_cons.mp hjc with h | h
    · subst h
      simp only [if_neg hnot]
      simp
    · by_cases hs : renderedComment toText jc0 ∈ existing
      · simp only [if_pos hs, List.nil_append]
        exact ih h
      · simp only [if_neg hs, List.nil_append]
        exact List.mem_append.mpr (Or.inr (ih h))

theorem commentFold_sound (toText : String → String) (existing : List String)
    (jcs : List JiraCommentM) (s : String)
    (hs : s ∈ jcs.foldl (fun created jc =>
      if renderedComment toText jc ∈ existing then created
      else created ++ [renderedComment toText jc]) []) :
    s ∉ existing ∧ ∃ jc ∈ jcs, s = renderedComment toText jc := by
  induction jcs with
  | nil => cases hs
  | cons jc0 rest ih =>
    simp only [List.foldl_cons] at hs
    rw [commentFold_append] at hs
    by_cases h0 : renderedComment toText jc0 ∈ existing
    · simp only [if_pos h0, List.nil_append] at hs
      obtain ⟨h1, jc, hjc, hs⟩ := ih hs
      exact ⟨h1, jc, List.mem_cons.mpr (Or.inr hjc), hs⟩
    · simp only [if_neg h0, List.nil_append] at hs
      rcases List.mem_append.mp hs with h | h
      · rcases List.mem_singleton.mp h with h
        subst h
        exact ⟨h0, jc0, List.mem_cons.mpr (Or.inl rfl), rfl⟩
      · obtain ⟨h1, jc, hjc, hs⟩ := ih h
        exact ⟨h1, jc, List.mem_cons.mpr (Or.inr hjc), hs⟩

theorem commentFold_all_present (toText : String → String) (e : List String)
    (jcs : List JiraCommentM) (h : ∀ jc ∈ jcs, renderedComment toText jc ∈ e) :
    jcs.foldl (fun created jc =>
      if renderedComment toText jc ∈ e then created
      else created ++ [renderedComment toText jc]) [] = [] := by
  induction jcs with
  | nil => rfl
  | cons jc0 rest ih =>
    simp only [List.foldl_cons, if_pos (h jc0 (List.mem_cons.mpr (Or.inl rfl)))]
    exact ih (fun jc hjc => h jc (List.mem_cons.mpr (Or.inr hjc)))

/-- C9: comment propagation is idempotent — a comment is created only when
its exact rendered, prefixed body is absent from the target side's
comments, and a second run, over the same Jira comments with the target
side now also holding everything the first run created, creates zero
additional comments. -/
theorem c9_comment_idempotent (toText : String → String)
    (cp : Option (List JiraCommentM)) (existing : List String) :
    (∀ s ∈ syncCommentsToTodoist toText cp existing, s ∉ existing) ∧
    syncCommentsToTodoist toText cp
      (existing ++ syncCommentsToTodoist toText cp existing) = [] := by
  cases cp with
  | none => simp [syncCommentsToTodoist]
  | some jcs =>
    constructor
    · intro s hs
      exact (commentFold_sound toText existing jcs s hs).1
    · simp only [syncCommentsToTodoist]
      apply commentFold_all_present
      intro jc hjc
      by_cases h0 : renderedComment toText jc ∈ existing
      · exact List.mem_append.mpr (Or.inl h0)
      · exact List.mem_append.mpr (Or.inr (commentFold_mem toText existing jcs jc hjc h0))

/-- Witness for C9: one Jira comment, empty target side — the first run
creates it, the second run over the enlarged target side creates nothing. -/
theorem c9_comment_idempotent_witness :
    syncCommentsToTodoist (fun s => s) (some [⟨some "alice", "hi"⟩])
      ([] ++ syncCommentsToTodoist (fun s => s) (some [⟨some "alice", "hi"⟩]) []) = [] :=
  (c9_comment_idempotent (fun s => s) (some [⟨some "alice", "hi"⟩]) []).2

/-! ### `Engine.Run` (`syncer/engine.go` lines 125-286)

The two clients are abstracted as oracles: `FetchEnv` holds the outcome of
each fetch-phase call, `ItemOps` the outcome of each per-item helper
(whose internal remote calls are not modeled — only whether the helper
returned an error, which is all `Run` inspects).  Go maps are modeled as
association lists with insert-overwrite, and Go's random map iteration
order as insertion order.  The `errgroup` reports whichever goroutine
fails; the model deterministically reports the Todoist-side error first,
which does not affect whether an error is reported.  A
`GetCompletedTasks` failure is only a warning and leaves the
completed-key set empty, exactly as in the source. -/

structure TodoistProject where
  id : String
  name : String
deriving DecidableEq

structure TodoistSection where
  id : String
  name : String
deriving DecidableEq

structure FetchEnv where
  findProject : Except String TodoistProject
  getSections : Except String (List TodoistSection)
  getTasks : Except String (List TodoistTask)
  getCompletedTasks : Except String (List TodoistTask)
  searchIssues : Except String (List JiraIssue)

structure ItemOps where
  createJiraFromTodoist : TodoistTask → Except String Unit
  createTodoistFromJira : JiraIssue → Except String Unit
  syncPair : TodoistTask → JiraIssue → Except String Unit
  doTransition : List Char → String → Except String Unit

/-- Per-item helper invocations of one cycle; these are what drive remote
mutations. -/
inductive Invocation where
  | createJira (taskID : String)
  | createTodoist (key : List Char)
  | syncPair (taskID : String) (key : List Char)
  | transitionClosed (key : List Char)
deriving DecidableEq

/-- Embedding of `syncAction`. -/
structure SyncActionM where
  jiraKey : List Char
  summary : List Char
deriving DecidableEq

/-- The `syncSummary` buckets the model tracks (`resolvedJira` and
`errors`; the other buckets are appended inside the abstracted helpers). -/
structure SummaryModel where
  resolvedJira : List SyncActionM
  errors : List SyncActionM
deriving DecidableEq

structure RunResult where
  err : Option String
  invoked : List Invocation
  summary : SummaryModel

/-- Go map lookup on the association-list model of `todoistByJiraKey`. -/
def lookupA (m : List (List Char × TodoistTask)) (k : List Char) : Option TodoistTask :=
  (m.find? (fun p => p.1 == k)).map (fun p => p.2)

/-- Go map assignment `m[k] = t` (overwrite or append). -/
def insertA (m : List (List Char × TodoistTask)) (k : List Char) (t : TodoistTask) :
    List (List Char × TodoistTask) :=
  if (lookupA m k).isSome then m.map (fun p => if p.1 == k then (k, t) else p)
  else m ++ [(k, t)]

/-- Embedding of the Todoist task classification of `Engine.Run` (lines
201-210): a task with a Jira key prefix is linked; otherwise a task
carrying the `jira-sync` label is unlinked (needs a Jira issue); all
others are ignored. -/
def classifyTasks (tasks : List TodoistTask) :
    List (List Char × TodoistTask) × List TodoistTask :=
  tasks.foldl (fun acc t =>
    if ExtractJiraKey t.content ≠ [] then (insertA acc.1 (ExtractJiraKey t.content) t, acc.2)
    else if t.labels.contains "jira-sync" then (acc.1, acc.2 ++ [t])
    else acc) ([], [])

/-- Embedding of the Jira issue classification of `Engine.Run` (lines
212-231), in source check order: linked issues are skipped (they are
synced in the linked-pair loop); an unlinked issue whose key is in the
recently-completed set is routed to `resolveJiraIssue`; an already
resolved issue is skipped; an issue not in an active sprint is skipped;
everything else is queued for Todoist-task creation.  Returns
(resolve-routed, unlinked-to-create). -/
def classifyStep (byKey : List (List Char × TodoistTask)) (completedKeys : List (List Char))
    (acc : List JiraIssue × List JiraIssue) (i : JiraIssue) : List JiraIssue × List JiraIssue :=
  if (lookupA byKey i.key).isSome then acc
  else if completedKeys.contains i.key then (acc.1 ++ [i], acc.2)
  else if (resolutionOf i).isSome then acc
  else if !(InCurrentSprint i) then acc
  else (acc.1, acc.2 ++ [i])

def classifyIssues (byKey : List (List Char × TodoistTask)) (completedKeys : List (List Char))
    (issues : List JiraIssue) : List JiraIssue × List JiraIssue :=
  issues.foldl (classifyStep byKey completedKeys) ([], [])

/-- Embedding of `findIssueByKey`. -/
def findIssueByKey (issues : List JiraIssue) (key : List Char) : Option JiraIssue :=
  issues.find? (fun i => i.key == key)

/-- Embedding of `Engine.resolveJiraIssue`: skip when already resolved;
otherwise attempt `DoTransition(key, "Closed")`, recording the resolved
action on success and an error action on failure.  Returns (invocations,
resolvedJira entries, error entries). -/
def resolveJiraModel (ops : ItemOps) (i : JiraIssue) :
    List Invocation × List SyncActionM × List SyncActionM :=
  if (resolutionOf i).isSome then ([], [], [])
  else
    match ops.doTransition i.key "Closed" with
    | Except.error _ =>
      ([Invocation.transitionClosed i.key], [],
       [⟨i.key, "resolve: ".toList ++ summaryOf i⟩])
    | Except.ok _ =>
      ([Invocation.transitionClosed i.key], [⟨i.key, summaryOf i⟩], [])

def isErr {ε α : Type} : Except ε α → Bool
  | Except.error _ => true
  | Except.ok _ => false

/-- A fetch-phase operation failed: finding the Todoist project, listing
its sections, listing its tasks, or searching Jira issues
(`GetCompletedTasks` is deliberately absent — its failure is a warning). -/
def fetchFailB (env : FetchEnv) : Bool :=
  isErr env.findProject || isErr env.getSections || isErr env.getTasks ||
    isErr env.searchIssues

/-- The recently-completed Jira key set (lines 162-174): empty when the
completed-tasks fetch failed, otherwise every nonempty key extracted from
a completed task's content. -/
def completedKeysOf (res : Except String (List TodoistTask)) : List (List Char) :=
  match res with
  | Except.error _ => []
  | Except.ok cts =>
    cts.foldl (fun acc ct =>
      if ExtractJiraKey ct.content ≠ [] then acc ++ [ExtractJiraKey ct.content] else acc) []

/-- The fetch phase of `Engine.Run` (the two errgroup goroutines, lines
140-199): any failure of the four fatal fetches aborts with a wrapped
error before anything else happens. -/
def fetchPhase (env : FetchEnv) :
    Except String (List TodoistTask × List (List Char) × List JiraIssue) :=
  match env.findProject with
  | Except.error e => Except.error ("find todoist project: " ++ e)
  | Except.ok _ =>
    match env.getSections with
    | Except.error e => Except.error ("get todoist sections: " ++ e)
    | Except.ok _ =>
      match env.getTasks with
      | Except.error e => Except.error ("get todoist tasks: " ++ e)
      | Except.ok tasks =>
        match env.searchIssues with
        | Except.error e => Except.error ("search jira issues: " ++ e)
        | Except.ok issues =>
          Except.ok (tasks, completedKeysOf env.getCompletedTasks, issues)

/-- The error-bucket entry Run appends when `createJiraFromTodoist`
fails (line 239). -/
def errActionTask (t : TodoistTask) : SyncActionM :=
  ⟨[], "create Jira from: ".toList ++ t.content⟩

/-- The error-bucket entry Run appends when `createTodoistFromJira`
fails (lines 249-253). -/
def errActionIssue (i : JiraIssue) : SyncActionM :=
  ⟨i.key, "create Todoist from: ".toList ++ summaryOf i⟩

/-- The error-bucket entry Run appends when `syncLinkedPair` fails
(lines 272-275). -/
def errActionSync (i : JiraIssue) : SyncActionM :=
  ⟨i.key, "sync: ".toList ++ summaryOf i⟩

/-- Embedding of `Engine.Run` (lines 125-286): fetch both sides (any fatal
fetch failure returns a wrapped error with nothing invoked); classify;
route completed unlinked issues through `resolveJiraIssue`; run the three
per-item loops, each recording a failed item in the error bucket and
continuing; return nil (`err = none`) regardless of per-item outcomes. -/
def EngineRun (env : FetchEnv) (ops : ItemOps) : RunResult :=
  match fetchPhase env with
  | Except.error e => ⟨some ("sync: " ++ e), [], ⟨[], []⟩⟩
  | Except.ok (tasks, completedKeys, issues) =>
    let tc := classifyTasks tasks
    let ic := classifyIssues tc.1 completedKeys issues
    let rres := ic.1.map (resolveJiraModel ops)
    let rInv := (rres.map (fun x => x.1)).flatten
    let rResolved := (rres.map (fun x => x.2.1)).flatten
    let rErrs := (rres.map (fun x => x.2.2)).flatten
    let cInv := tc.2.map (fun t => Invocation.createJira t.id)
    let cErrs := tc.2.filterMap (fun t =>
      match ops.createJiraFromTodoist t with
      | Except.error _ => some (errActionTask t)
      | Except.ok _ => none)
    let dInv := ic.2.map (fun i => Invocation.createTodoist i.key)
    let dErrs := ic.2.filterMap (fun i =>
      match ops.createTodoistFromJira i with
      | Except.error _ => some (errActionIssue i)
      | Except.ok _ => none)
    let pairs := tc.1.filterMap (fun p =>
      match findIssueByKey issues p.1 with
      | some i => some (p.2, i)
      | none => none)
    let sInv := pairs.map (fun q => Invocation.syncPair q.1.id q.2.key)
    let sErrs := pairs.filterMap (fun q =>
      match ops.syncPair q.1 q.2 with
      | Except.error _ => some (errActionSync q.2)
      | Except.ok _ => none)
    ⟨none, rInv ++ cInv ++ dInv ++ sInv, ⟨rResolved, rErrs ++ cErrs ++ dErrs ++ sErrs⟩⟩

theorem fetchPhase_isErr (env : FetchEnv) : isErr (fetchPhase env) = fetchFailB env := by
  obtain ⟨fp, gs, gt, gct, si⟩ := env
  cases fp <;> cases gs <;> cases gt <;> cases si <;>
    simp [fetchPhase, fetchFailB, isErr]

/-- C3: `Engine.Run` returns an error iff a fatal fetch-phase operation
(find project, list sections, list tasks, search issues) fails, and in
that case no per-item helper is ever invoked (no remote mutation); when
the fetch phase succeeds, `Run` returns nil regardless of per-item
outcomes, every classified item still has its helper invoked (processing
continues past failures), and each failing create/sync helper and each
failing resolve transition leaves its entry in the summary's error
bucket. -/
theorem c3_run_error_policy (env : FetchEnv) (ops : ItemOps) :
    ((EngineRun env ops).err.isSome = true ↔ fetchFailB env = true) ∧
    (fetchFailB env = true → (EngineRun env ops).invoked = []) ∧
    (∀ tasks completedKeys issues,
      fetchPhase env = Except.ok (tasks, completedKeys, issues) →
      (∀ t ∈ (classifyTasks tasks).2,
        Invocation.createJira t.id ∈ (EngineRun env ops).invoked ∧
        (isErr (ops.createJiraFromTodoist t) = true →
          errActionTask t ∈ (EngineRun env ops).summary.errors)) ∧
      (∀ i ∈ (classifyIssues (classifyTasks tasks).1 completedKeys issues).2,
        Invocation.createTodoist i.key ∈ (EngineRun env ops).invoked ∧
        (isErr (ops.createTodoistFromJira i) = true →
          errActionIssue i ∈ (EngineRun env ops).summary.errors)) ∧
      (∀ p ∈ (classifyTasks tasks).1, ∀ i, findIssueByKey issues p.1 = some i →
        Invocation.syncPair p.2.id i.key ∈ (EngineRun env ops).invoked ∧
        (isErr (ops.syncPair p.2 i) = true →
          errActionSync i ∈ (EngineRun env ops).summary.errors))) := by
  refine ⟨?_, ?_, ?_⟩
  · rw [← fetchPhase_isErr]
    cases hfp : fetchPhase env with
    | error e => simp [EngineRun, hfp, isErr]
    | ok triple =>
      obtain ⟨tasks, ck, issues⟩ := triple
      simp [EngineRun, hfp, isErr]
  · intro hfail
    rw [← fetchPhase_isErr] at hfail
    cases hfp : fetchPhase env with
    | error e => simp [EngineRun, hfp]
    | ok triple => rw [hfp] at hfail; simp [isErr] at hfail
  · intro tasks ck issues hfetch
    refine ⟨?_, ?_, ?_⟩
    · intro t ht
      constructor
      · simp only [EngineRun, hfetch]
        refine List.mem_append.mpr (Or.inl (List.mem_append.mpr (Or.inl
          (List.mem_append.mpr (Or.inr ?_)))))
        exact List.mem_map.mpr ⟨t, ht, rfl⟩
      · intro herr
        simp only [EngineRun, hfetch]
        refine List.mem_append.mpr (Or.inl (List.mem_append.mpr (Or.inl
          (List.mem_append.mpr (Or.inr ?_)))))
        refine List.mem_filterMap.mpr ⟨t, ht, ?_⟩
        cases hop : ops.createJiraFromTodoist t with
        | error e => rfl
        | ok u => rw [hop] at herr; simp [isErr] at herr
    · intro i hi
      constructor
      · simp only [EngineRun, hfetch]
        refine List.mem_append.mpr (Or.inl (List.mem_append.mpr (Or.inr ?_)))
        exact List.mem_map.mpr ⟨i, hi, rfl⟩
      · intro herr
        simp only [EngineRun, hfetch]
        refine List.mem_append.mpr (Or.inl (List.mem_append.mpr (Or.inr ?_)))
        refine List.mem_filterMap.mpr ⟨i, hi, ?_⟩
        cases hop : ops.createTodoistFromJira i with
        | error e => rfl
        | ok u => rw [hop] at herr; simp [isErr] at herr
    · intro p hp i hfind
      constructor
      · simp only [EngineRun, hfetch]
        refine List.mem_append.mpr (Or.inr ?_)
        refine List.mem_map.mpr ⟨(p.2, i), ?_, rfl⟩
        refine List.mem_filterMap.mpr ⟨p, hp, ?_⟩
        rw [hfind]
      · intro herr
        simp only [EngineRun, hfetch]
        refine List.mem_append.mpr (Or.inr ?_)
        refine List.mem_filterMap.mpr ⟨(p.2, i), ?_, ?_⟩
        · refine List.mem_filterMap.mpr ⟨p, hp, ?_⟩
          rw [hfind]
        · cases hop : ops.syncPair p.2 i with
          | error e => rfl
          | ok u => rw [hop] at herr; simp [isErr] at herr

/-- A concrete unlinked, labeled Todoist task used in the C3 witness. -/
def taskC3 : TodoistTask := ⟨"t1", [], ["jira-sync"], "", none⟩

/-- A concrete fetch environment where every fatal fetch succeeds. -/
def envC3 : FetchEnv :=
  ⟨Except.ok ⟨"p1", "Work"⟩, Except.ok [], Except.ok [taskC3], Except.ok [], Except.ok []⟩

/-- Concrete per-item oracles in which creating the Jira issue fails. -/
def opsC3 : ItemOps :=
  ⟨fun _ => Except.error "boom", fun _ => Except.ok (), fun _ _ => Except.ok (),
   fun _ _ => Except.ok ()⟩

/-- Witness for C3: with all fetches succeeding and `createJiraFromTodoist`
failing, the helper is still invoked for the unlinked task and its failure
lands in the error bucket (and, per the theorem's first conjunct, the run
itself still reports no error). -/
theorem c3_run_error_policy_witness :
    Invocation.createJira "t1" ∈ (EngineRun envC3 opsC3).invoked ∧
    errActionTask taskC3 ∈ (EngineRun envC3 opsC3).summary.errors := by
  have h := ((c3_run_error_policy envC3 opsC3).2.2 [taskC3] [] [] rfl).1 taskC3 (by decide)
  exact ⟨h.1, h.2 rfl⟩

theorem classifyStep_init (byKey : List (List Char × TodoistTask))
    (ck : List (List Char)) (i : JiraIssue) :
    classifyStep byKey ck ([], []) i =
      ((if !(lookupA byKey i.key).isSome && ck.contains i.key then [i] else []),
       (if !(lookupA byKey i.key).isSome && !ck.contains i.key &&
            !(resolutionOf i).isSome && InCurrentSprint i then [i] else [])) := by
  unfold classifyStep
  cases h1 : (lookupA byKey i.key).isSome <;>
    cases h2 : ck.contains i.key <;>
    cases h3 : (resolutionOf i).isSome <;>
    cases h4 : InCurrentSprint i <;>
    simp [h1, h2, h3, h4]

theorem classifyStep_val (byKey : List (List Char × TodoistTask))
    (ck : List (List Char)) (acc : List JiraIssue × List JiraIssue) (i : JiraIssue) :
    classifyStep byKey ck acc i =
      (acc.1 ++ (classifyStep byKey ck ([], []) i).1,
       acc.2 ++ (classifyStep byKey ck ([], []) i).2) := by
  unfold classifyStep
  cases h1 : (lookupA byKey i.key).isSome <;>
    cases h2 : ck.contains i.key <;>
    cases h3 : (resolutionOf i).isSome <;>
    cases h4 : InCurrentSprint i <;>
    simp [h1, h2, h3, h4]

theorem classifyStep_acc (byKey : List (List Char × TodoistTask))
    (ck : List (List Char)) (issues : List JiraIssue) :
    ∀ acc : List JiraIssue × List JiraIssue,
      issues.foldl (classifyStep byKey ck) acc =
        (acc.1 ++ (issues.foldl (classifyStep byKey ck) ([], [])).1,
         acc.2 ++ (issues.foldl (classifyStep byKey ck) ([], [])).2) := by
  induction issues with
  | nil => intro acc; simp
  | cons i rest ih =>
    intro acc
    simp only [List.foldl_cons]
    rw [ih (classifyStep byKey ck acc i), ih (classifyStep byKey ck ([], []) i),
      classifyStep_val byKey ck acc i]
    simp [List.append_assoc]

theorem classifyIssues_spec (byKey : List (List Char × TodoistTask))
    (ck : List (List Char)) (issues : List JiraIssue) :
    (classifyIssues byKey ck issues).1 =
      issues.filter (fun i => !(lookupA byKey i.key).isSome && ck.contains i.key) ∧
    (classifyIssues byKey ck issues).2 =
      issues.filter (fun i => !(lookupA byKey i.key).isSome && !ck.contains i.key &&
        !(resolutionOf i).isSome && InCurrentSprint i) := by
  induction issues with
  | nil => exact ⟨rfl, rfl⟩
  | cons i rest ih =>
    obtain ⟨ih1, ih2⟩ := ih
    unfold classifyIssues at ih1 ih2 ⊢
    simp only [List.foldl_cons]
    rw [classifyStep_acc byKey ck rest (classifyStep byKey ck ([], []) i),
      classifyStep_init byKey ck i]
    constructor
    · rw [List.filter_cons]
      cases hp : (!(lookupA byKey i.key).isSome && ck.contains i.key) <;> simp [ih1]
    · rw [List.filter_cons]
      cases hp : (!(lookupA byKey i.key).isSome && !ck.contains i.key &&
          !(resolutionOf i).isSome && InCurrentSprint i) <;> simp [ih2]

/-- C4: for every fetched issue that is not linked, being in the
recently-completed set routes it to `resolveJiraIssue` and keeps it out of
the creation queue — with no hypothesis on its resolution or sprint, since
the completed-check is evaluated before the resolved-skip and the sprint
filter — and the creation queue holds exactly the unlinked issues that
pass the completed-check, are unresolved, and sit in an active sprint. -/
theorem c4_issue_classification (byKey : List (List Char × TodoistTask))
    (ck : List (List Char)) (issues : List JiraIssue) :
    ∀ i ∈ issues,
      ((lookupA byKey i.key).isSome = false → ck.contains i.key = true →
        i ∈ (classifyIssues byKey ck issues).1 ∧
        i ∉ (classifyIssues byKey ck issues).2) ∧
      (i ∈ (classifyIssues byKey ck issues).2 ↔
        ((lookupA byKey i.key).isSome = false ∧ ck.contains i.key = false ∧
         (resolutionOf i).isSome = false ∧ InCurrentSprint i = true)) := by
  intro i hi
  obtain ⟨hs1, hs2⟩ := classifyIssues_spec byKey ck issues
  have hiff : i ∈ (classifyIssues byKey ck issues).2 ↔
      ((lookupA byKey i.key).isSome = false ∧ ck.contains i.key = false ∧
       (resolutionOf i).isSome = false ∧ InCurrentSprint i = true) := by
    rw [hs2]
    constructor
    · intro hmem
      have h := (List.mem_filter.mp hmem).2
      simp only [Bool.and_eq_true, Bool.not_eq_true'] at h
      exact ⟨h.1.1.1, h.1.1.2, h.1.2, h.2⟩
    · intro h
      obtain ⟨h1, h2, h3, h4⟩ := h
      exact List.mem_filter.mpr ⟨hi, by rw [h1, h2, h3, h4]; rfl⟩
  refine ⟨?_, hiff⟩
  intro hnl hcomp
  constructor
  · rw [hs1]
    exact List.mem_filter.mpr ⟨hi, by rw [hnl, hcomp]; rfl⟩
  · intro hmem
    have hfalse := (hiff.mp hmem).2.1
    rw [hcomp] at hfalse
    exact Bool.noConfusion hfalse

/-- A completed-and-already-resolved unlinked issue used in the C4
witness: the completed-check fires before the resolved-skip, so it is
still routed to resolution. -/
def issueC4 : JiraIssue := ⟨"AB-1".toList, some ⟨[], some "Done", none, 0, none⟩⟩

/-- Witness for C4: the unlinked issue `AB-1`, whose key was recently
completed on the Todoist side, is routed to resolution and not queued for
creation even though it is already resolved. -/
theorem c4_issue_classification_witness :
    issueC4 ∈ (classifyIssues [] ["AB-1".toList] [issueC4]).1 ∧
    issueC4 ∉ (classifyIssues [] ["AB-1".toList] [issueC4]).2 :=
  (c4_issue_classification [] ["AB-1".toList] [issueC4] issueC4 (by decide)).1
    (by decide) (by decide)
